import Mathlib

/-!
Verification of the pub/sub core of `pubsub.go` (package radix).

Shallow embedding conventions:
* Go byte strings (`[]byte` and `string`, which convert losslessly) are
  modelled as `List Nat`, one `Nat` per byte.
* Go maps are modelled as association lists; map keys are unique in Go, and
  the operations below preserve that, but the theorems are stated so that
  they hold for the states the operations can actually build.
* Fallible Go functions returning `error` are modelled with `Except`/`Option`.
* The external `Conn` (encode / decode / close) and the ack frames fed by the
  reader loop are outside `src/`; the outcome of a single `do` call is
  therefore supplied as an oracle argument `o : WireCmd → Option Err`.
-/

/-- Byte strings: Go `[]byte` / `string`, one `Nat` per byte. -/
abbrev ByteStr := List Nat

/-- Errors carried by the connection operations (Go `error` values made with
`errors.New`); identified by their message string. -/
abbrev Err := String

/-- Model of `bytes.ToLower` on the ASCII range: uppercase ASCII bytes are
shifted to lowercase, all other bytes pass through unchanged.  (Go's
`bytes.ToLower` additionally lowercases non-ASCII UTF-8 runes; every
comparison in the source is against the ASCII tags `"message"` /
`"pmessage"`, for which the bytewise ASCII mapping agrees.) -/
def goToLower (b : ByteStr) : ByteStr :=
  b.map (fun x => if 65 ≤ x ∧ x ≤ 90 then x + 32 else x)

/-- The bytes of the ASCII string `"message"`. -/
def messageTag : ByteStr := [109, 101, 115, 115, 97, 103, 101]

/-- The bytes of the ASCII string `"pmessage"`. -/
def pmessageTag : ByteStr := [112, 109, 101, 115, 115, 97, 103, 101]

/-- Go struct `PubSubMessage` (field `Type` is spelled `typ` because `Type`
is a Lean keyword). -/
structure PubSubMessage where
  typ : ByteStr
  pattern : ByteStr
  channel : ByteStr
  message : ByteStr
deriving DecidableEq

/-- Decode errors of `PubSubMessage.UnmarshalRESP`, one constructor per
`errors.New` / `fmt.Errorf` site in the source:
`tooFewElements` = "message has too few elements",
`notMessageOrPMessage ty` = `"not message or pmessage: %q"` with the
lower-cased first element. -/
inductive DecodeErr where
  | tooFewElements
  | notMessageOrPMessage (ty : ByteStr)
deriving DecidableEq

/-- Go `PubSubMessage.MarshalRESP`.  The written RESP array is represented by
the list of its bulk-string elements; the `resp2.ArrayHeader{N: …}` the
source writes first equals the length of that list (3 for `"message"`, 4 for
`"pmessage"`), so the header carries no extra information. -/
def PubSubMessage.marshalRESP (m : PubSubMessage) : Except String (List ByteStr) :=
  if m.typ = messageTag then
    .ok [m.typ, m.channel, m.message]
  else if m.typ = pmessageTag then
    .ok [m.typ, m.pattern, m.channel, m.message]
  else
    .error "unknown message Type"

/-- Go `PubSubMessage.UnmarshalRESP`, applied to the sequence of byte strings
`bb` that `resp2.Any` produced from the wire.  The source lower-cases
`bb[0]` into `m.Type` before the shape checks; in the ok branches that
lower-cased tag equals `messageTag` / `pmessageTag`, which is what is stored
here.  A literal message leaves `m.Pattern` at its zero value `""` (`[]`). -/
def PubSubMessage.unmarshalRESP : List ByteStr → Except DecodeErr PubSubMessage
  | b0 :: b1 :: b2 :: rest =>
    if goToLower b0 = pmessageTag then
      match rest with
      | b3 :: _ => .ok ⟨pmessageTag, b1, b2, b3⟩
      | [] => .error .tooFewElements
    else if goToLower b0 = messageTag then
      .ok ⟨messageTag, [], b1, b2⟩
    else
      .error (.notMessageOrPMessage (goToLower b0))
  | _ => .error .tooFewElements

/-- Helper: lower-casing the (already lowercase) tags is the identity. -/
theorem goToLower_messageTag : goToLower messageTag = messageTag := by decide

theorem goToLower_pmessageTag : goToLower pmessageTag = pmessageTag := by decide

/-- Helper: a sequence of ≥ 3 elements whose head lower-cases to `"message"`
decodes to a literal message built from its second and third elements. -/
theorem unmarshalRESP_message (b0 b1 b2 : ByteStr) (rest : List ByteStr)
    (h : goToLower b0 = messageTag) :
    PubSubMessage.unmarshalRESP (b0 :: b1 :: b2 :: rest)
      = .ok ⟨messageTag, [], b1, b2⟩ := by
  have hne : ¬(messageTag = pmessageTag) := by decide
  simp only [PubSubMessage.unmarshalRESP, h]
  simp
  exact fun hc => absurd hc hne

/-- Helper: a sequence of ≥ 4 elements whose head lower-cases to
`"pmessage"` decodes to a pattern message built from elements 2–4. -/
theorem unmarshalRESP_pmessage (b0 b1 b2 b3 : ByteStr) (rest : List ByteStr)
    (h : goToLower b0 = pmessageTag) :
    PubSubMessage.unmarshalRESP (b0 :: b1 :: b2 :: b3 :: rest)
      = .ok ⟨pmessageTag, b1, b2, b3⟩ := by
  simp only [PubSubMessage.unmarshalRESP, h]
  simp

/-- C4: encoding a literal message with Type `"message"` (any channel, any
payload, any stored pattern) and then decoding the result yields a message
with the same channel and payload; encoding a pattern message with Type
`"pmessage"` and then decoding yields the same pattern, channel and
payload. -/
theorem c4_codec_roundtrip :
    (∀ pat ch pl : ByteStr,
      (PubSubMessage.marshalRESP ⟨messageTag, pat, ch, pl⟩).toOption.bind
          (fun bb => (PubSubMessage.unmarshalRESP bb).toOption)
        = some ⟨messageTag, [], ch, pl⟩) ∧
    (∀ pat ch pl : ByteStr,
      (PubSubMessage.marshalRESP ⟨pmessageTag, pat, ch, pl⟩).toOption.bind
          (fun bb => (PubSubMessage.unmarshalRESP bb).toOption)
        = some ⟨pmessageTag, pat, ch, pl⟩) := by
  constructor
  · intro pat ch pl
    have hm : PubSubMessage.marshalRESP ⟨messageTag, pat, ch, pl⟩
        = .ok [messageTag, ch, pl] := by
      unfold PubSubMessage.marshalRESP
      rw [if_pos rfl]
    rw [hm]
    show (PubSubMessage.unmarshalRESP [messageTag, ch, pl]).toOption = _
    rw [unmarshalRESP_message messageTag ch pl [] goToLower_messageTag]
    rfl
  · intro pat ch pl
    have hne : ¬(pmessageTag = messageTag) := by decide
    have hm : PubSubMessage.marshalRESP ⟨pmessageTag, pat, ch, pl⟩
        = .ok [pmessageTag, pat, ch, pl] := by
      unfold PubSubMessage.marshalRESP
      rw [if_neg hne, if_pos rfl]
    rw [hm]
    show (PubSubMessage.unmarshalRESP [pmessageTag, pat, ch, pl]).toOption = _
    rw [unmarshalRESP_pmessage pmessageTag pat ch pl [] goToLower_pmessageTag]
    rfl

/-- C7: the decoder fails on fewer than 3 elements; a head lower-casing to
`"pmessage"` additionally needs a 4th element and then consumes the second
element as the pattern; a head lower-casing to neither `"message"` nor
`"pmessage"` fails with the unrecognized-kind error; and a well-formed
sequence with an empty payload element decodes successfully. -/
theorem c7_decode_errors :
    (∀ bb : List ByteStr, bb.length < 3 →
      PubSubMessage.unmarshalRESP bb = .error .tooFewElements) ∧
    (∀ b0 b1 b2 : ByteStr, goToLower b0 = pmessageTag →
      PubSubMessage.unmarshalRESP [b0, b1, b2] = .error .tooFewElements) ∧
    (∀ b0 b1 b2 b3 : ByteStr, ∀ rest : List ByteStr, goToLower b0 = pmessageTag →
      PubSubMessage.unmarshalRESP (b0 :: b1 :: b2 :: b3 :: rest)
        = .ok ⟨pmessageTag, b1, b2, b3⟩) ∧
    (∀ b0 b1 b2 : ByteStr, ∀ rest : List ByteStr,
      goToLower b0 ≠ messageTag → goToLower b0 ≠ pmessageTag →
      PubSubMessage.unmarshalRESP (b0 :: b1 :: b2 :: rest)
        = .error (.notMessageOrPMessage (goToLower b0))) ∧
    (∀ ch : ByteStr,
      PubSubMessage.unmarshalRESP [messageTag, ch, []] = .ok ⟨messageTag, [], ch, []⟩) ∧
    (∀ pat ch : ByteStr,
      PubSubMessage.unmarshalRESP [pmessageTag, pat, ch, []]
        = .ok ⟨pmessageTag, pat, ch, []⟩) := by
  refine ⟨?_, ?_, ?_, ?_, ?_, ?_⟩
  · intro bb h
    rcases bb with _ | ⟨a, _ | ⟨b, _ | ⟨c, r⟩⟩⟩
    · rfl
    · rfl
    · rfl
    · exfalso; simp [List.length_cons] at h; omega
  · intro b0 b1 b2 h
    simp only [PubSubMessage.unmarshalRESP, h]
    simp
  · intro b0 b1 b2 b3 rest h
    exact unmarshalRESP_pmessage b0 b1 b2 b3 rest h
  · intro b0 b1 b2 rest h1 h2
    simp only [PubSubMessage.unmarshalRESP]
    rw [if_neg h2, if_neg h1]
  · intro ch
    exact unmarshalRESP_message messageTag ch [] [] goToLower_messageTag
  · intro pat ch
    exact unmarshalRESP_pmessage pmessageTag pat ch [] [] goToLower_pmessageTag

/-- Witness for C7 at concrete inputs. -/
theorem c7_decode_errors_witness :
    PubSubMessage.unmarshalRESP [messageTag] = .error .tooFewElements ∧
    PubSubMessage.unmarshalRESP [pmessageTag, [97], [98]] = .error .tooFewElements ∧
    PubSubMessage.unmarshalRESP [pmessageTag, [97], [98], [99]]
      = .ok ⟨pmessageTag, [97], [98], [99]⟩ ∧
    PubSubMessage.unmarshalRESP [[120], [97], [98]]
      = .error (.notMessageOrPMessage (goToLower [120])) ∧
    PubSubMessage.unmarshalRESP [messageTag, [97], []] = .ok ⟨messageTag, [], [97], []⟩ :=
  ⟨c7_decode_errors.1 [messageTag] (by decide),
   c7_decode_errors.2.1 pmessageTag [97] [98] goToLower_pmessageTag,
   c7_decode_errors.2.2.1 pmessageTag [97] [98] [99] [] goToLower_pmessageTag,
   c7_decode_errors.2.2.2.1 [120] [97] [98] [] (by decide) (by decide),
   c7_decode_errors.2.2.2.2.1 [97]⟩

/-- C10: trailing extra elements are silently ignored: ≥ 4 elements headed
by a tag lower-casing to `"message"` decode to channel = 2nd element and
payload = 3rd; ≥ 5 elements headed by `"pmessage"` decode from the first
four elements only. -/
theorem c10_decode_extras :
    (∀ b0 b1 b2 b3 : ByteStr, ∀ rest : List ByteStr, goToLower b0 = messageTag →
      PubSubMessage.unmarshalRESP (b0 :: b1 :: b2 :: b3 :: rest)
        = .ok ⟨messageTag, [], b1, b2⟩) ∧
    (∀ b0 b1 b2 b3 b4 : ByteStr, ∀ rest : List ByteStr, goToLower b0 = pmessageTag →
      PubSubMessage.unmarshalRESP (b0 :: b1 :: b2 :: b3 :: b4 :: rest)
        = .ok ⟨pmessageTag, b1, b2, b3⟩) := by
  constructor
  · intro b0 b1 b2 b3 rest h
    exact unmarshalRESP_message b0 b1 b2 (b3 :: rest) h
  · intro b0 b1 b2 b3 b4 rest h
    exact unmarshalRESP_pmessage b0 b1 b2 b3 (b4 :: rest) h

/-- Witness for C10 at concrete inputs. -/
theorem c10_decode_extras_witness :
    PubSubMessage.unmarshalRESP [messageTag, [97], [98], [99]]
      = .ok ⟨messageTag, [], [97], [98]⟩ ∧
    PubSubMessage.unmarshalRESP [pmessageTag, [97], [98], [99], [100]]
      = .ok ⟨pmessageTag, [97], [98], [99]⟩ :=
  ⟨c10_decode_extras.1 messageTag [97] [98] [99] [] goToLower_messageTag,
   c10_decode_extras.2 pmessageTag [97] [98] [99] [100] [] goToLower_pmessageTag⟩

/-- Sinks are the caller-owned `chan<- PubSubMessage` values; their identity
is by reference, modelled as an opaque handle. -/
abbrev Sink := Nat

/-- A sink set: Go inner map `map[chan<- PubSubMessage]bool` (keys unique),
as the list of its members. -/
abbrev SinkSet := List Sink

/-- Go `chanSet` = `map[string]map[chan<- PubSubMessage]bool`, as an
association list from subscription key to sink set. -/
abbrev ChanSet := List (ByteStr × SinkSet)

/-- Map indexing `cs[s]` with its presence bit: `some` iff the key is
present. -/
def chanSet.lookup : ChanSet → ByteStr → Option SinkSet
  | [], _ => none
  | (k, m) :: rest, s => if k = s then some m else chanSet.lookup rest s

/-- Overwrite of the sink set stored under key `s` (Go mutates the
looked-up inner map `m` in place, so `cs[s]` afterwards reads the new
set). -/
def chanSet.update : ChanSet → ByteStr → SinkSet → ChanSet
  | [], _, _ => []
  | (k, m) :: rest, s, m' =>
    if k = s then (k, m') :: chanSet.update rest s m'
    else (k, m) :: chanSet.update rest s m'

/-- Go `delete(cs, s)`. -/
def chanSet.removeKey : ChanSet → ByteStr → ChanSet
  | [], _ => []
  | (k, m) :: rest, s =>
    if k = s then chanSet.removeKey rest s
    else (k, m) :: chanSet.removeKey rest s

/-- Go `chanSet.add`: install a fresh one-element inner map when the key is
absent, otherwise set `m[ch] = true` (a no-op when `ch` is already a
member). -/
def chanSet.add (cs : ChanSet) (s : ByteStr) (ch : Sink) : ChanSet :=
  match chanSet.lookup cs s with
  | none => cs ++ [(s, [ch])]
  | some m => chanSet.update cs s (if ch ∈ m then m else m ++ [ch])

/-- Go `chanSet.del`: absent key returns `true` untouched; otherwise
`delete(m, ch)`, and if the inner map is now empty the key is removed and
`true` returned, else `false`. -/
def chanSet.del (cs : ChanSet) (s : ByteStr) (ch : Sink) : ChanSet × Bool :=
  match chanSet.lookup cs s with
  | none => (cs, true)
  | some m =>
    if m.filter (fun x => x ≠ ch) = [] then (chanSet.removeKey cs s, true)
    else (chanSet.update cs s (m.filter (fun x => x ≠ ch)), false)

/-- Go `chanSet.missing`: the candidate keys not yet present, in order.
The source writes the result into `out := ss[:0]`, which shares `ss`'s
backing array: the returned value is this filter, and as a side effect the
caller's slice afterwards reads as `result ++ ss[len(result):]` (see
`PubSubConn.Subscribe`). -/
def chanSet.missing (cs : ChanSet) (ss : List ByteStr) : List ByteStr :=
  ss.filter (fun s => (chanSet.lookup cs s).isNone)

/-- Helper: a removed key no longer looks up. -/
theorem chanSet.lookup_removeKey_self (cs : ChanSet) (s : ByteStr) :
    chanSet.lookup (chanSet.removeKey cs s) s = none := by
  induction cs with
  | nil => rfl
  | cons p rest ih =>
    obtain ⟨k, m⟩ := p
    by_cases hk : k = s
    · simp [chanSet.removeKey, hk, ih]
    · simp [chanSet.removeKey, chanSet.lookup, hk, ih]

/-- Helper: removing one key leaves the others' lookups unchanged. -/
theorem chanSet.lookup_removeKey_ne (cs : ChanSet) (s t : ByteStr) (h : t ≠ s) :
    chanSet.lookup (chanSet.removeKey cs s) t = chanSet.lookup cs t := by
  induction cs with
  | nil => rfl
  | cons p rest ih =>
    obtain ⟨k, m⟩ := p
    by_cases hk : k = s
    · subst hk
      simp [chanSet.removeKey, chanSet.lookup, Ne.symm h, ih]
    · by_cases ht : k = t
      · simp [chanSet.removeKey, chanSet.lookup, hk, ht, h]
      · simp [chanSet.removeKey, chanSet.lookup, hk, ht, ih]

/-- Helper: updating one key leaves the others' lookups unchanged. -/
theorem chanSet.lookup_update_ne (cs : ChanSet) (s t : ByteStr) (m' : SinkSet)
    (h : t ≠ s) :
    chanSet.lookup (chanSet.update cs s m') t = chanSet.lookup cs t := by
  induction cs with
  | nil => rfl
  | cons p rest ih =>
    obtain ⟨k, m⟩ := p
    by_cases hk : k = s
    · subst hk
      simp [chanSet.update, chanSet.lookup, Ne.symm h, ih]
    · by_cases ht : k = t
      · simp [chanSet.update, chanSet.lookup, hk, ht, h]
      · simp [chanSet.update, chanSet.lookup, hk, ht, ih]

/-- Helper: updating a present key makes its lookup read the new set. -/
theorem chanSet.lookup_update_self (cs : ChanSet) (s : ByteStr) (m m' : SinkSet)
    (h : chanSet.lookup cs s = some m) :
    chanSet.lookup (chanSet.update cs s m') s = some m' := by
  induction cs with
  | nil => simp [chanSet.lookup] at h
  | cons p rest ih =>
    obtain ⟨k, mm⟩ := p
    by_cases hk : k = s
    · simp [chanSet.update, chanSet.lookup, hk]
    · simp [chanSet.lookup, hk] at h
      simp [chanSet.update, chanSet.lookup, hk, ih h]

/-- Helper: appending entries does not disturb a successful lookup. -/
theorem chanSet.lookup_append_some (cs l : ChanSet) (s : ByteStr) (m : SinkSet)
    (h : chanSet.lookup cs s = some m) :
    chanSet.lookup (cs ++ l) s = some m := by
  induction cs with
  | nil => simp [chanSet.lookup] at h
  | cons p rest ih =>
    obtain ⟨k, mm⟩ := p
    by_cases hk : k = s
    · simp [chanSet.lookup, hk] at h ⊢
      exact h
    · simp [chanSet.lookup, hk] at h ⊢
      exact ih h

/-- Helper: equation of `chanSet.del` for an absent key. -/
theorem chanSet.del_eq_none (cs : ChanSet) (s : ByteStr) (ch : Sink)
    (h : chanSet.lookup cs s = none) :
    chanSet.del cs s ch = (cs, true) := by
  unfold chanSet.del
  rw [h]

/-- Helper: equation of `chanSet.del` when the removal empties the set. -/
theorem chanSet.del_eq_last (cs : ChanSet) (s : ByteStr) (ch : Sink) (m : SinkSet)
    (h : chanSet.lookup cs s = some m) (hm : m.filter (fun x => x ≠ ch) = []) :
    chanSet.del cs s ch = (chanSet.removeKey cs s, true) := by
  unfold chanSet.del
  rw [h]
  show (if m.filter (fun x => x ≠ ch) = [] then (chanSet.removeKey cs s, true)
    else (chanSet.update cs s (m.filter (fun x => x ≠ ch)), false)) = _
  rw [if_pos hm]

/-- Helper: equation of `chanSet.del` when other sinks remain. -/
theorem chanSet.del_eq_keep (cs : ChanSet) (s : ByteStr) (ch : Sink) (m : SinkSet)
    (h : chanSet.lookup cs s = some m) (hm : m.filter (fun x => x ≠ ch) ≠ []) :
    chanSet.del cs s ch
      = (chanSet.update cs s (m.filter (fun x => x ≠ ch)), false) := by
  unfold chanSet.del
  rw [h]
  show (if m.filter (fun x => x ≠ ch) = [] then (chanSet.removeKey cs s, true)
    else (chanSet.update cs s (m.filter (fun x => x ≠ ch)), false)) = _
  rw [if_neg hm]

/-- Helper: the shared specification of `chanSet.del`'s boolean result —
it reports whether the key is absent from the resulting map. -/
theorem chanSet.del_spec (cs : ChanSet) (s : ByteStr) (ch : Sink) :
    ((chanSet.del cs s ch).2 = true ↔
      chanSet.lookup (chanSet.del cs s ch).1 s = none) := by
  cases hl : chanSet.lookup cs s with
  | none =>
    rw [chanSet.del_eq_none cs s ch hl]
    simpa using hl
  | some m =>
    by_cases hm : m.filter (fun x => x ≠ ch) = []
    · rw [chanSet.del_eq_last cs s ch m hl hm]
      simp [chanSet.lookup_removeKey_self]
    · rw [chanSet.del_eq_keep cs s ch m hl hm]
      simp [chanSet.lookup_update_self cs s m _ hl]

/-- Helper: entries of `update` are original entries or carry the new set. -/
theorem chanSet.mem_update (cs : ChanSet) (s : ByteStr) (m' : SinkSet)
    (p : ByteStr × SinkSet) (h : p ∈ chanSet.update cs s m') :
    p ∈ cs ∨ p.2 = m' := by
  induction cs with
  | nil => simp [chanSet.update] at h
  | cons q rest ih =>
    obtain ⟨k, m⟩ := q
    by_cases hk : k = s
    · simp [chanSet.update, hk] at h
      rcases h with h | h
      · right; rw [h]
      · rcases ih h with h' | h'
        · left; exact List.mem_cons_of_mem _ h'
        · right; exact h'
    · simp [chanSet.update, hk] at h
      rcases h with h | h
      · left; simp [h]
      · rcases ih h with h' | h'
        · left; exact List.mem_cons_of_mem _ h'
        · right; exact h'

/-- Helper: entries of `removeKey` are original entries. -/
theorem chanSet.mem_removeKey (cs : ChanSet) (s : ByteStr)
    (p : ByteStr × SinkSet) (h : p ∈ chanSet.removeKey cs s) : p ∈ cs := by
  induction cs with
  | nil => simp [chanSet.removeKey] at h
  | cons q rest ih =>
    obtain ⟨k, m⟩ := q
    by_cases hk : k = s
    · simp [chanSet.removeKey, hk] at h
      exact List.mem_cons_of_mem _ (ih h)
    · simp [chanSet.removeKey, hk] at h
      rcases h with h | h
      · simp [h]
      · exact List.mem_cons_of_mem _ (ih h)

/-- Helper: `add` preserves the every-sink-set-nonempty invariant. -/
theorem chanSet.add_nonempty (cs : ChanSet) (s : ByteStr) (ch : Sink)
    (hcs : ∀ p ∈ cs, p.2 ≠ []) : ∀ p ∈ chanSet.add cs s ch, p.2 ≠ [] := by
  intro p hp
  unfold chanSet.add at hp
  cases hl : chanSet.lookup cs s with
  | none =>
    rw [hl] at hp
    rcases List.mem_append.mp hp with h | h
    · exact hcs p h
    · simp at h
      simp [h]
  | some m =>
    rw [hl] at hp
    rcases chanSet.mem_update _ _ _ _ hp with h | h
    · exact hcs p h
    · rw [h]
      by_cases hch : ch ∈ m
      · simpa [hch] using List.ne_nil_of_mem hch
      · simp [hch]

/-- Helper: `del` preserves the every-sink-set-nonempty invariant. -/
theorem chanSet.del_nonempty (cs : ChanSet) (s : ByteStr) (ch : Sink)
    (hcs : ∀ p ∈ cs, p.2 ≠ []) : ∀ p ∈ (chanSet.del cs s ch).1, p.2 ≠ [] := by
  intro p hp
  cases hl : chanSet.lookup cs s with
  | none =>
    rw [chanSet.del_eq_none cs s ch hl] at hp
    exact hcs p hp
  | some m =>
    by_cases hm : m.filter (fun x => x ≠ ch) = []
    · rw [chanSet.del_eq_last cs s ch m hl hm] at hp
      exact hcs p (chanSet.mem_removeKey _ _ _ hp)
    · rw [chanSet.del_eq_keep cs s ch m hl hm] at hp
      rcases chanSet.mem_update _ _ _ _ hp with h | h
      · exact hcs p h
      · rw [h]; exact hm

/-- C8: `chanSet.del` returns `true` exactly when, after the removal, the
key no longer maps to any sink — in particular `true` when the key was
absent (and the map is untouched), and `false` when other sinks remain
registered under the key. -/
theorem c8_del_reports_emptiness :
    (∀ (cs : ChanSet) (s : ByteStr) (ch : Sink),
      ((chanSet.del cs s ch).2 = true ↔
        chanSet.lookup (chanSet.del cs s ch).1 s = none)) ∧
    (∀ (cs : ChanSet) (s : ByteStr) (ch : Sink),
      chanSet.lookup cs s = none → chanSet.del cs s ch = (cs, true)) ∧
    (∀ (cs : ChanSet) (s : ByteStr) (ch : Sink) (m : SinkSet),
      chanSet.lookup cs s = some m → (∃ x ∈ m, x ≠ ch) →
      (chanSet.del cs s ch).2 = false) := by
  refine ⟨chanSet.del_spec, ?_, ?_⟩
  · intro cs s ch h
    exact chanSet.del_eq_none cs s ch h
  · intro cs s ch m h hx
    have hne : m.filter (fun x => x ≠ ch) ≠ [] := by
      rcases hx with ⟨x, hxm, hxc⟩
      exact List.ne_nil_of_mem (List.mem_filter.mpr ⟨hxm, by simp [hxc]⟩)
    rw [chanSet.del_eq_keep cs s ch m h hne]

/-- Witness for C8 at concrete inputs. -/
theorem c8_del_reports_emptiness_witness :
    chanSet.del [([97], [5])] [98] 3 = ([([97], [5])], true) ∧
    (chanSet.del [([97], [5, 6])] [97] 5).2 = false :=
  ⟨c8_del_reports_emptiness.2.1 [([97], [5])] [98] 3 (by decide),
   c8_del_reports_emptiness.2.2 [([97], [5, 6])] [97] 5 [5, 6] (by decide) (by decide)⟩

/-- Registry states reachable from the empty registry by any sequence of
`add` and `del` operations. -/
inductive chanSet.Reachable : ChanSet → Prop
  | empty : chanSet.Reachable []
  | add (cs : ChanSet) (s : ByteStr) (ch : Sink) :
      chanSet.Reachable cs → chanSet.Reachable (chanSet.add cs s ch)
  | del (cs : ChanSet) (s : ByteStr) (ch : Sink) :
      chanSet.Reachable cs → chanSet.Reachable (chanSet.del cs s ch).1

/-- C9: every registry state reachable from the empty registry by `add` and
`del` has a non-empty sink set under every present key. -/
theorem c9_nonempty_invariant (cs : ChanSet) (h : chanSet.Reachable cs) :
    ∀ p ∈ cs, p.2 ≠ [] := by
  induction h with
  | empty => simp
  | add cs' s ch _ ih => exact chanSet.add_nonempty cs' s ch ih
  | del cs' s ch _ ih => exact chanSet.del_nonempty cs' s ch ih

/-- Witness for C9: the invariant applied to the entry of the concrete
reachable state `del (add (add ∅ "a" 1) "a" 2) "a" 1 = {"a": {2}}`. -/
theorem c9_nonempty_invariant_witness :
    (([97], [2]) : ByteStr × SinkSet).2 ≠ [] :=
  c9_nonempty_invariant _
    (chanSet.Reachable.del _ [97] 1
      (chanSet.Reachable.add _ [97] 2
        (chanSet.Reachable.add _ [97] 1 chanSet.Reachable.empty)))
    ([97], [2]) (by decide)

/-- The record of one wire command issued through `pubSubConn.do`: `exp`
acknowledgement frames are awaited for command `cmd` with arguments `args`
(`Cmd(nil, cmd, args...)` encoded on the connection). -/
structure WireCmd where
  exp : Nat
  cmd : String
  args : List ByteStr
deriving DecidableEq

/-- The "connection closed" error produced by `recvCmdRes` once the
command-response channel has been closed and nilled by `closeInner`. -/
def connClosedErr : Err := "connection closed"

/-- Sequential-interleaving state of Go `pubSubConn`: the two registries,
whether `close.Do` has fired (after which `cmdResCh` is nil), and the
cached `closeErr`.  The underlying `Conn`, the locks and the channels are
external resources; their behaviour enters through `PubSubConn.doCall` and
the oracle arguments. -/
structure PubSubConn where
  subs : ChanSet
  psubs : ChanSet
  closed : Bool
  closeErr : Option Err
deriving DecidableEq

/-- The state `newPubSub` builds: empty registries, open, zero `closeErr`. -/
def pubSubInit : PubSubConn := ⟨[], [], false, none⟩

/-- Result of `pubSubConn.do` for one command `w`.  While the connection is
open the result (encode outcome plus the `exp` acknowledgements received
via `recvCmdRes`) is environment-determined and supplied by the oracle `o`.
After `closeInner` has run, `cmdResCh` is nil, so every `recvCmdRes`
returns the connection-closed error; `o w` then plays the closed `Conn`'s
encode outcome, surfaced first when it is an error.  (Every `do` call site
in the source passes `exp ≥ 1`.) -/
def PubSubConn.doCall (c : PubSubConn) (o : WireCmd → Option Err) (w : WireCmd) :
    Option Err :=
  if c.closed then
    match o w with
    | some e => some e
    | none => if w.exp = 0 then none else some connClosedErr
  else o w

/-- The `for _, channel := range channels { c.subs.add(channel, msgCh) }`
loop of `Subscribe`. -/
def chanSet.addAll (cs : ChanSet) (ch : Sink) (ss : List ByteStr) : ChanSet :=
  ss.foldl (fun acc s => chanSet.add acc s ch) cs

/-- The del loop of `Unsubscribe`: the final registry and, in order, the
channels whose del reported the key gone (`emptyChannels`). -/
def chanSet.delAll (cs : ChanSet) (ch : Sink) : List ByteStr → ChanSet × List ByteStr
  | [] => (cs, [])
  | s :: rest =>
    let r := chanSet.del cs s ch
    let r' := chanSet.delAll r.1 ch rest
    (r'.1, if r.2 then s :: r'.2 else r'.2)

/-- Go `pubSubConn.Subscribe`.  Returns (new state, issued wire commands,
returned error).  `chanSet.missing` compacts its result into `channels`'s
backing array (`out := ss[:0]` aliases `ss`), so after the `missing` call
the variadic slice the add-loop ranges over reads as
`missing ++ channels[len(missing):]` — that aliased list, not the caller's
original argument, is what gets registered. -/
def PubSubConn.Subscribe (c : PubSubConn) (msgCh : Sink) (channels : List ByteStr)
    (o : WireCmd → Option Err) : PubSubConn × List WireCmd × Option Err :=
  let missing := chanSet.missing c.subs channels
  let aliased := missing ++ channels.drop missing.length
  if missing.length > 0 then
    let w : WireCmd := ⟨missing.length, "SUBSCRIBE", missing⟩
    match c.doCall o w with
    | some e => (c, [w], some e)
    | none => ({ c with subs := chanSet.addAll c.subs msgCh aliased }, [w], none)
  else
    ({ c with subs := chanSet.addAll c.subs msgCh aliased }, [], none)

/-- Go `pubSubConn.Unsubscribe`: del every channel, collect
`emptyChannels`; nothing collected means success with no wire round-trip,
otherwise one UNSUBSCRIBE naming exactly the collected channels. -/
def PubSubConn.Unsubscribe (c : PubSubConn) (msgCh : Sink) (channels : List ByteStr)
    (o : WireCmd → Option Err) : PubSubConn × List WireCmd × Option Err :=
  let r := chanSet.delAll c.subs msgCh channels
  let c' := { c with subs := r.1 }
  if r.2.length = 0 then (c', [], none)
  else
    let w : WireCmd := ⟨r.2.length, "UNSUBSCRIBE", r.2⟩
    (c', [w], c'.doCall o w)

/-- Go `pubSubConn.PSubscribe`: `Subscribe` against the pattern registry. -/
def PubSubConn.PSubscribe (c : PubSubConn) (msgCh : Sink) (patterns : List ByteStr)
    (o : WireCmd → Option Err) : PubSubConn × List WireCmd × Option Err :=
  let missing := chanSet.missing c.psubs patterns
  let aliased := missing ++ patterns.drop missing.length
  if missing.length > 0 then
    let w : WireCmd := ⟨missing.length, "PSUBSCRIBE", missing⟩
    match c.doCall o w with
    | some e => (c, [w], some e)
    | none => ({ c with psubs := chanSet.addAll c.psubs msgCh aliased }, [w], none)
  else
    ({ c with psubs := chanSet.addAll c.psubs msgCh aliased }, [], none)

/-- Go `pubSubConn.PUnsubscribe`: `Unsubscribe` against the pattern
registry. -/
def PubSubConn.PUnsubscribe (c : PubSubConn) (msgCh : Sink) (patterns : List ByteStr)
    (o : WireCmd → Option Err) : PubSubConn × List WireCmd × Option Err :=
  let r := chanSet.delAll c.psubs msgCh patterns
  let c' := { c with psubs := r.1 }
  if r.2.length = 0 then (c', [], none)
  else
    let w : WireCmd := ⟨r.2.length, "PUNSUBSCRIBE", r.2⟩
    (c', [w], c'.doCall o w)

/-- Go `pubSubConn.Ping`: `c.do(1, "PING")`. -/
def PubSubConn.Ping (c : PubSubConn) (o : WireCmd → Option Err) :
    PubSubConn × List WireCmd × Option Err :=
  let w : WireCmd := ⟨1, "PING", []⟩
  (c, [w], c.doCall o w)

/-- Go `pubSubConn.closeInner` under `close.Do`: the first call closes the
underlying `Conn` (outcome `connCloseRes`, supplied by the environment),
caches it in `closeErr`, nils both registries and closes/nils `cmdResCh`;
every call returns the cached `closeErr`.  Notifying `closeErrCh` /
`testEventCh` is I/O on external channels and is not modelled. -/
def PubSubConn.closeInner (c : PubSubConn) (connCloseRes : Option Err) :
    PubSubConn × Option Err :=
  if c.closed then (c, c.closeErr)
  else ({ subs := [], psubs := [], closed := true, closeErr := connCloseRes },
        connCloseRes)

/-- Go `pubSubConn.Close` = `closeInner(nil)`. -/
def PubSubConn.Close (c : PubSubConn) (connCloseRes : Option Err) :
    PubSubConn × Option Err :=
  c.closeInner connCloseRes

/-- Go `pubSubConn.publish`: the set of sinks the message is written to.
The source first reads `subs := c.subs[m.Channel]` and then overrides it
with `c.psubs[m.Pattern]` when `m.Type == "pmessage"`; the net selection is
this conditional.  A missing key reads as the empty (nil) inner map, so
nothing is delivered. -/
def PubSubConn.publish (c : PubSubConn) (m : PubSubMessage) : List Sink :=
  if m.typ = pmessageTag then (chanSet.lookup c.psubs m.pattern).getD []
  else (chanSet.lookup c.subs m.channel).getD []

/-- Helper: on the empty registry every candidate key is missing. -/
theorem chanSet.missing_nil (ss : List ByteStr) : chanSet.missing [] ss = ss :=
  List.filter_eq_self.mpr (fun _ _ => by simp [chanSet.lookup])

/-- Helper: the single-channel unfolding of the del loop. -/
theorem chanSet.delAll_single (cs : ChanSet) (ch : Sink) (k : ByteStr) :
    chanSet.delAll cs ch [k]
      = ((chanSet.del cs k ch).1,
         if (chanSet.del cs k ch).2 then [k] else []) := rfl

/-- C3: a literal (`"message"`-typed) push message is delivered to exactly
the sinks registered under its channel in the literal registry; a
`"pmessage"`-typed message to exactly the sinks registered under its
pattern in the pattern registry; and for pattern messages the channel field
plays no role in sink selection. -/
theorem c3_publish_routing :
    (∀ (c : PubSubConn) (m : PubSubMessage) (sink : Sink), m.typ = messageTag →
      (sink ∈ c.publish m ↔
        ∃ ss, chanSet.lookup c.subs m.channel = some ss ∧ sink ∈ ss)) ∧
    (∀ (c : PubSubConn) (m : PubSubMessage) (sink : Sink), m.typ = pmessageTag →
      (sink ∈ c.publish m ↔
        ∃ ss, chanSet.lookup c.psubs m.pattern = some ss ∧ sink ∈ ss)) ∧
    (∀ (c : PubSubConn) (pat pl ch1 ch2 : ByteStr),
      c.publish ⟨pmessageTag, pat, ch1, pl⟩ = c.publish ⟨pmessageTag, pat, ch2, pl⟩) := by
  refine ⟨?_, ?_, ?_⟩
  · intro c m sink ht
    have hne : m.typ ≠ pmessageTag := by rw [ht]; decide
    unfold PubSubConn.publish
    rw [if_neg hne]
    cases hl : chanSet.lookup c.subs m.channel with
    | none => simp
    | some ss => simp
  · intro c m sink ht
    unfold PubSubConn.publish
    rw [if_pos ht]
    cases hl : chanSet.lookup c.psubs m.pattern with
    | none => simp
    | some ss => simp
  · intro c pat pl ch1 ch2
    unfold PubSubConn.publish
    rfl

/-- Witness for C3 at a concrete registry state and message. -/
theorem c3_publish_routing_witness :
    (3 ∈ PubSubConn.publish ⟨[([97], [3, 4])], [([97], [9])], false, none⟩
        ⟨messageTag, [], [97], [104]⟩ ↔
      ∃ ss, chanSet.lookup [([97], [3, 4])] [97] = some ss ∧ 3 ∈ ss) ∧
    (9 ∈ PubSubConn.publish ⟨[([97], [3, 4])], [([97], [9])], false, none⟩
        ⟨pmessageTag, [97], [98], [104]⟩ ↔
      ∃ ss, chanSet.lookup [([97], [9])] [97] = some ss ∧ 9 ∈ ss) :=
  ⟨c3_publish_routing.1 ⟨[([97], [3, 4])], [([97], [9])], false, none⟩
      ⟨messageTag, [], [97], [104]⟩ 3 rfl,
   c3_publish_routing.2.1 ⟨[([97], [3, 4])], [([97], [9])], false, none⟩
      ⟨pmessageTag, [97], [98], [104]⟩ 9 rfl⟩

/-- C1 counterexample: on the open initial state the key `"a"` is absent
and the pair (`"a"`, sink 0) is not registered, yet `Unsubscribe(0, "a")`
issues a wire UNSUBSCRIBE naming `"a"` — not a no-op, because
`chanSet.del` also returns `true` for an absent key. -/
theorem c1_counterexample :
    (pubSubInit.Unsubscribe 0 [[97]] (fun _ => none)).2.1
      = [⟨1, "UNSUBSCRIBE", [[97]]⟩] := rfl

/-- C1 amended: unsubscribing a sink from a key it does not hold is wire-
silent and error-free only when the key is still held by other sinks; for
a key absent from the registry altogether, `Unsubscribe` issues a wire
UNSUBSCRIBE naming that key and returns that command's outcome. -/
theorem c1_unsubscribe_amended :
    (∀ (c : PubSubConn) (sink : Sink) (k : ByteStr) (m : SinkSet)
        (o : WireCmd → Option Err),
      c.closed = false → chanSet.lookup c.subs k = some m → sink ∉ m → m ≠ [] →
      (c.Unsubscribe sink [k] o).2.1 = [] ∧
      (c.Unsubscribe sink [k] o).2.2 = none) ∧
    (∀ (c : PubSubConn) (sink : Sink) (k : ByteStr) (o : WireCmd → Option Err),
      c.closed = false → chanSet.lookup c.subs k = none →
      (c.Unsubscribe sink [k] o).2.1 = [⟨1, "UNSUBSCRIBE", [k]⟩] ∧
      (c.Unsubscribe sink [k] o).2.2 = o ⟨1, "UNSUBSCRIBE", [k]⟩) := by
  constructor
  · intro c sink k m o hc hl hs hm
    have hfil : m.filter (fun x => x ≠ sink) = m := by
      refine List.filter_eq_self.mpr (fun x hx => ?_)
      simp only [ne_eq, decide_eq_true_eq]
      rintro rfl
      exact hs hx
    have hkeep := chanSet.del_eq_keep c.subs k sink m hl (by rw [hfil]; exact hm)
    constructor <;>
      simp [PubSubConn.Unsubscribe, chanSet.delAll_single, hkeep]
  · intro c sink k o hc hl
    have hnone := chanSet.del_eq_none c.subs k sink hl
    constructor <;>
      simp [PubSubConn.Unsubscribe, chanSet.delAll_single, hnone,
        PubSubConn.doCall, hc]

/-- Witness for C1's amended statement at concrete inputs. -/
theorem c1_unsubscribe_amended_witness :
    ((PubSubConn.Unsubscribe ⟨[([97], [5])], [], false, none⟩ 6 [[97]]
        (fun _ => none)).2.1 = [] ∧
     (PubSubConn.Unsubscribe ⟨[([97], [5])], [], false, none⟩ 6 [[97]]
        (fun _ => none)).2.2 = none) ∧
    ((pubSubInit.Unsubscribe 6 [[98]] (fun _ => none)).2.1
        = [⟨1, "UNSUBSCRIBE", [[98]]⟩] ∧
     (pubSubInit.Unsubscribe 6 [[98]] (fun _ => none)).2.2 = none) :=
  ⟨c1_unsubscribe_amended.1 ⟨[([97], [5])], [], false, none⟩ 6 [97] [5]
      (fun _ => none) rfl rfl (by decide) (by decide),
   c1_unsubscribe_amended.2 pubSubInit 6 [98] (fun _ => none) rfl rfl⟩

/-- C6: the failing evaluation.  From the state where sink 1 alone holds
key `"a"`, `Subscribe(sink 2, ["a", "b"])` with a successful wire command
returns no error but leaves `"a" ↦ {1}` unchanged: the pair (`"a"`, 2) is
never added, because `chanSet.missing`'s in-place compaction
(`out := ss[:0]`) overwrites the `channels` slice that the add-loop then
ranges over (it reads `["b", "b"]` instead of `["a", "b"]`).  This
contradicts both the claim and the `PubSubConn` interface documentation
("each msgCh will receieve a copy of the PubSubMessage for each publish").
The wire-failure half of the claim does hold in the code: the error arms of
`Subscribe`/`PSubscribe` return the registry untouched. -/
theorem c6_subscribe_aliasing_bug :
    (PubSubConn.Subscribe ⟨[([97], [1])], [], false, none⟩ 2 [[97], [98]]
        (fun _ => none)).2.2 = none ∧
    (PubSubConn.Subscribe ⟨[([97], [1])], [], false, none⟩ 2 [[97], [98]]
        (fun _ => none)).1.subs = [([97], [1]), ([98], [2])] ∧
    chanSet.lookup (PubSubConn.Subscribe ⟨[([97], [1])], [], false, none⟩ 2
        [[97], [98]] (fun _ => none)).1.subs [97] = some [1] :=
  ⟨rfl, rfl, rfl⟩

/-- Helper: a `do` call on a closed connection with a positive expected-ack
count always returns an error: the closed `Conn`'s encode error if any,
else `recvCmdRes`'s connection-closed error. -/
theorem PubSubConn.doCall_closed_isSome (c : PubSubConn) (o : WireCmd → Option Err)
    (w : WireCmd) (hc : c.closed = true) (he : w.exp ≠ 0) :
    (c.doCall o w).isSome := by
  unfold PubSubConn.doCall
  rw [if_pos hc]
  cases o w with
  | some e => rfl
  | none => simp [he]

/-- Helper: deleting from the nil registry touches nothing and reports
every key. -/
theorem chanSet.delAll_nil_subs (ch : Sink) (ss : List ByteStr) :
    chanSet.delAll [] ch ss = ([], ss) := by
  induction ss with
  | nil => rfl
  | cons s rest ih =>
    simp [chanSet.delAll, chanSet.del_eq_none [] s ch rfl, ih]

/-- Helper: on a connection whose literal registry is nil (as after
`closeInner`), `Subscribe` with a non-empty key list reduces to the one
`do` call. -/
theorem PubSubConn.subscribe_cmd_of_nil (c : PubSubConn) (sink : Sink)
    (keys : List ByteStr) (o : WireCmd → Option Err)
    (hs : c.subs = []) (hk : keys ≠ []) :
    (c.Subscribe sink keys o).2.2
      = c.doCall o ⟨keys.length, "SUBSCRIBE", keys⟩ := by
  have hl : keys.length > 0 := List.length_pos.mpr hk
  simp only [PubSubConn.Subscribe, hs, chanSet.missing_nil]
  rw [if_pos hl]
  cases c.doCall o ⟨keys.length, "SUBSCRIBE", keys⟩ <;> rfl

/-- Helper: with a nil literal registry, `Unsubscribe` with a non-empty key
list reduces to the one `do` call. -/
theorem PubSubConn.unsubscribe_cmd_of_nil (c : PubSubConn) (sink : Sink)
    (keys : List ByteStr) (o : WireCmd → Option Err)
    (hs : c.subs = []) (hk : keys ≠ []) :
    (c.Unsubscribe sink keys o).2.2
      = c.doCall o ⟨keys.length, "UNSUBSCRIBE", keys⟩ := by
  have hl : ¬(keys.length = 0) := fun h => hk (List.length_eq_zero.mp h)
  simp only [PubSubConn.Unsubscribe, hs, chanSet.delAll_nil_subs]
  rw [if_neg hl]
  exact rfl

/-- Helper: with a nil pattern registry, `PSubscribe` with a non-empty key
list reduces to the one `do` call. -/
theorem PubSubConn.psubscribe_cmd_of_nil (c : PubSubConn) (sink : Sink)
    (keys : List ByteStr) (o : WireCmd → Option Err)
    (hp : c.psubs = []) (hk : keys ≠ []) :
    (c.PSubscribe sink keys o).2.2
      = c.doCall o ⟨keys.length, "PSUBSCRIBE", keys⟩ := by
  have hl : keys.length > 0 := List.length_pos.mpr hk
  simp only [PubSubConn.PSubscribe, hp, chanSet.missing_nil]
  rw [if_pos hl]
  cases c.doCall o ⟨keys.length, "PSUBSCRIBE", keys⟩ <;> rfl

/-- Helper: with a nil pattern registry, `PUnsubscribe` with a non-empty
key list reduces to the one `do` call. -/
theorem PubSubConn.punsubscribe_cmd_of_nil (c : PubSubConn) (sink : Sink)
    (keys : List ByteStr) (o : WireCmd → Option Err)
    (hp : c.psubs = []) (hk : keys ≠ []) :
    (c.PUnsubscribe sink keys o).2.2
      = c.doCall o ⟨keys.length, "PUNSUBSCRIBE", keys⟩ := by
  have hl : ¬(keys.length = 0) := fun h => hk (List.length_eq_zero.mp h)
  simp only [PubSubConn.PUnsubscribe, hp, chanSet.delAll_nil_subs]
  rw [if_neg hl]
  exact rfl

/-- C5 counterexample: on the state left by `close()` (registries nil,
closed), `Subscribe` with an empty key list returns no error — it skips the
`do` call entirely and its add-loop has nothing to iterate — contradicting
the claim that every post-close call returns the closed-condition error. -/
theorem c5_counterexample :
    ((pubSubInit.Close none).1.Subscribe 7 [] (fun _ => none)).2.2 = none := rfl

/-- C5 amended: after `close()` every call to one of the four subscription
operations with a NON-EMPTY key list, and every `Ping`, returns an error
(the connection-closed error unless the closed connection's encode itself
errors first); calls with an empty key list return no error; and a second
`close()` returns exactly the first call's result. -/
theorem c5_closed_amended :
    (∀ (c : PubSubConn) (sink : Sink) (keys : List ByteStr)
        (o : WireCmd → Option Err),
      c.closed = true → c.subs = [] → c.psubs = [] → keys ≠ [] →
      (c.Subscribe sink keys o).2.2.isSome ∧
      (c.Unsubscribe sink keys o).2.2.isSome ∧
      (c.PSubscribe sink keys o).2.2.isSome ∧
      (c.PUnsubscribe sink keys o).2.2.isSome) ∧
    (∀ (c : PubSubConn) (o : WireCmd → Option Err), c.closed = true →
      (c.Ping o).2.2.isSome) ∧
    (∀ (c : PubSubConn) (sink : Sink) (o : WireCmd → Option Err),
      (c.Subscribe sink [] o).2.2 = none ∧
      (c.Unsubscribe sink [] o).2.2 = none ∧
      (c.PSubscribe sink [] o).2.2 = none ∧
      (c.PUnsubscribe sink [] o).2.2 = none) ∧
    (∀ (c : PubSubConn) (r1 r2 : Option Err),
      ((c.Close r1).1.Close r2).2 = (c.Close r1).2) := by
  refine ⟨?_, ?_, ?_, ?_⟩
  · intro c sink keys o hc hs hp hk
    have he : keys.length ≠ 0 := fun h => hk (List.length_eq_zero.mp h)
    refine ⟨?_, ?_, ?_, ?_⟩
    · rw [PubSubConn.subscribe_cmd_of_nil c sink keys o hs hk]
      exact PubSubConn.doCall_closed_isSome c o _ hc he
    · rw [PubSubConn.unsubscribe_cmd_of_nil c sink keys o hs hk]
      exact PubSubConn.doCall_closed_isSome c o _ hc he
    · rw [PubSubConn.psubscribe_cmd_of_nil c sink keys o hp hk]
      exact PubSubConn.doCall_closed_isSome c o _ hc he
    · rw [PubSubConn.punsubscribe_cmd_of_nil c sink keys o hp hk]
      exact PubSubConn.doCall_closed_isSome c o _ hc he
  · intro c o hc
    show (c.doCall o ⟨1, "PING", []⟩).isSome
    exact PubSubConn.doCall_closed_isSome c o _ hc (by decide)
  · intro c sink o
    exact ⟨rfl, rfl, rfl, rfl⟩
  · intro c r1 r2
    by_cases hc : c.closed <;>
      simp [PubSubConn.Close, PubSubConn.closeInner, hc]

/-- Witness for C5's amended statement at concrete inputs. -/
theorem c5_closed_amended_witness :
    ((PubSubConn.Subscribe ⟨[], [], true, none⟩ 3 [[97]] (fun _ => none)).2.2.isSome ∧
     (PubSubConn.Unsubscribe ⟨[], [], true, none⟩ 3 [[97]] (fun _ => none)).2.2.isSome ∧
     (PubSubConn.PSubscribe ⟨[], [], true, none⟩ 3 [[97]] (fun _ => none)).2.2.isSome ∧
     (PubSubConn.PUnsubscribe ⟨[], [], true, none⟩ 3 [[97]] (fun _ => none)).2.2.isSome) ∧
    (PubSubConn.Ping ⟨[], [], true, none⟩ (fun _ => none)).2.2.isSome ∧
    (PubSubConn.Subscribe ⟨[], [], true, none⟩ 3 [] (fun _ => none)).2.2 = none ∧
    (PubSubConn.Close
        (PubSubConn.Close ⟨[], [], false, none⟩ (some "x")).1 none).2
      = (PubSubConn.Close ⟨[], [], false, none⟩ (some "x")).2 :=
  ⟨c5_closed_amended.1 (⟨[], [], true, none⟩ : PubSubConn) 3 [[97]]
      (fun _ => none) rfl rfl rfl (by decide),
   c5_closed_amended.2.1 (⟨[], [], true, none⟩ : PubSubConn) (fun _ => none) rfl,
   (c5_closed_amended.2.2.1 (⟨[], [], true, none⟩ : PubSubConn) 3
      (fun _ => none)).1,
   c5_closed_amended.2.2.2 (⟨[], [], false, none⟩ : PubSubConn) (some "x") none⟩

/-- Helper: equation of `chanSet.add` for a fresh key. -/
theorem chanSet.add_eq_new (cs : ChanSet) (s : ByteStr) (ch : Sink)
    (h : chanSet.lookup cs s = none) :
    chanSet.add cs s ch = cs ++ [(s, [ch])] := by
  unfold chanSet.add
  rw [h]

/-- Helper: equation of `chanSet.add` for a present key. -/
theorem chanSet.add_eq_some (cs : ChanSet) (s : ByteStr) (ch : Sink) (m : SinkSet)
    (h : chanSet.lookup cs s = some m) :
    chanSet.add cs s ch
      = chanSet.update cs s (if ch ∈ m then m else m ++ [ch]) := by
  unfold chanSet.add
  rw [h]

/-- Helper: `add` never removes a present key. -/
theorem chanSet.add_preserve (cs : ChanSet) (s : ByteStr) (ch : Sink) (k : ByteStr)
    (hk : chanSet.lookup cs k ≠ none) :
    chanSet.lookup (chanSet.add cs s ch) k ≠ none := by
  cases hl : chanSet.lookup cs s with
  | none =>
    rw [chanSet.add_eq_new cs s ch hl]
    obtain ⟨m, hm⟩ : ∃ m, chanSet.lookup cs k = some m := by
      cases hx : chanSet.lookup cs k
      · exact absurd hx hk
      · exact ⟨_, rfl⟩
    rw [chanSet.lookup_append_some cs [(s, [ch])] k m hm]
    simp
  | some m =>
    rw [chanSet.add_eq_some cs s ch m hl]
    by_cases hks : k = s
    · subst hks
      rw [chanSet.lookup_update_self cs k m _ hl]
      simp
    · rw [chanSet.lookup_update_ne cs s k _ hks]
      exact hk

/-- Helper: the add-loop never removes a present key. -/
theorem chanSet.addAll_preserve (ch : Sink) (ss : List ByteStr) (cs : ChanSet)
    (k : ByteStr) (hk : chanSet.lookup cs k ≠ none) :
    chanSet.lookup (chanSet.addAll cs ch ss) k ≠ none := by
  induction ss generalizing cs with
  | nil => exact hk
  | cons s rest ih => exact ih _ (chanSet.add_preserve cs s ch k hk)

/-- Helper: `del` on one key leaves the other keys' lookups unchanged. -/
theorem chanSet.del_lookup_ne (cs : ChanSet) (s : ByteStr) (ch : Sink) (k : ByteStr)
    (hks : k ≠ s) :
    chanSet.lookup (chanSet.del cs s ch).1 k = chanSet.lookup cs k := by
  cases hl : chanSet.lookup cs s with
  | none => rw [chanSet.del_eq_none cs s ch hl]
  | some m =>
    by_cases hm : m.filter (fun x => x ≠ ch) = []
    · rw [chanSet.del_eq_last cs s ch m hl hm]
      exact chanSet.lookup_removeKey_ne cs s k hks
    · rw [chanSet.del_eq_keep cs s ch m hl hm]
      exact chanSet.lookup_update_ne cs s k _ hks

/-- Helper: the del loop keeps a key present as long as the key is not
among the collected `emptyChannels`. -/
theorem chanSet.delAll_preserve (ch : Sink) (ss : List ByteStr) (cs : ChanSet)
    (k : ByteStr) (hk : chanSet.lookup cs k ≠ none)
    (hnot : k ∉ (chanSet.delAll cs ch ss).2) :
    chanSet.lookup (chanSet.delAll cs ch ss).1 k ≠ none := by
  induction ss generalizing cs with
  | nil => exact hk
  | cons s rest ih =>
    have hdef : chanSet.delAll cs ch (s :: rest)
        = ((chanSet.delAll (chanSet.del cs s ch).1 ch rest).1,
           if (chanSet.del cs s ch).2 then
             s :: (chanSet.delAll (chanSet.del cs s ch).1 ch rest).2
           else (chanSet.delAll (chanSet.del cs s ch).1 ch rest).2) := rfl
    simp only [hdef] at hnot ⊢
    have hk' : chanSet.lookup (chanSet.del cs s ch).1 k ≠ none := by
      by_cases hks : k = s
      · subst hks
        by_cases hd : (chanSet.del cs k ch).2 = true
        · exfalso
          rw [if_pos hd] at hnot
          exact hnot (List.mem_cons_self _ _)
        · intro hnone
          exact hd ((chanSet.del_spec cs k ch).mpr hnone)
      · rw [chanSet.del_lookup_ne cs s ch k hks]
        exact hk
    have hnot' : k ∉ (chanSet.delAll (chanSet.del cs s ch).1 ch rest).2 :=
      fun hmem => hnot (by
        by_cases hd : (chanSet.del cs s ch).2 = true
        · rw [if_pos hd]; exact List.mem_cons_of_mem _ hmem
        · rw [if_neg hd]; exact hmem)
    exact ih _ hk' hnot'

/-- Helper: a member of the missing list is an absent key. -/
theorem chanSet.lookup_of_mem_missing (cs : ChanSet) (ss : List ByteStr)
    (x : ByteStr) (hx : x ∈ chanSet.missing cs ss) :
    chanSet.lookup cs x = none := by
  have := (List.mem_filter.mp hx).2
  simpa using this

/-- Helper: `Subscribe` issues either nothing or exactly the one SUBSCRIBE
naming the missing keys with matching expected-ack count. -/
theorem PubSubConn.subscribe_cmds (c : PubSubConn) (sink : Sink)
    (chs : List ByteStr) (o : WireCmd → Option Err) :
    (c.Subscribe sink chs o).2.1 = [] ∨
    (c.Subscribe sink chs o).2.1
      = [⟨(chanSet.missing c.subs chs).length, "SUBSCRIBE",
          chanSet.missing c.subs chs⟩] := by
  simp only [PubSubConn.Subscribe]
  by_cases h : (chanSet.missing c.subs chs).length > 0
  · rw [if_pos h]
    cases c.doCall o ⟨(chanSet.missing c.subs chs).length, "SUBSCRIBE",
        chanSet.missing c.subs chs⟩
    · right; rfl
    · right; rfl
  · rw [if_neg h]
    left; rfl

/-- Helper: `Subscribe`'s resulting literal registry is the old one (wire
failure) or the old one extended by the add-loop. -/
theorem PubSubConn.subscribe_state (c : PubSubConn) (sink : Sink)
    (chs : List ByteStr) (o : WireCmd → Option Err) :
    (c.Subscribe sink chs o).1.subs = c.subs ∨
    (c.Subscribe sink chs o).1.subs
      = chanSet.addAll c.subs sink
          (chanSet.missing c.subs chs
            ++ chs.drop (chanSet.missing c.subs chs).length) := by
  simp only [PubSubConn.Subscribe]
  by_cases h : (chanSet.missing c.subs chs).length > 0
  · rw [if_pos h]
    cases c.doCall o ⟨(chanSet.missing c.subs chs).length, "SUBSCRIBE",
        chanSet.missing c.subs chs⟩
    · right; rfl
    · left; rfl
  · rw [if_neg h]
    right; rfl

/-- Helper: `Subscribe` never removes a present key. -/
theorem PubSubConn.subscribe_preserve (c : PubSubConn) (sink : Sink)
    (chs : List ByteStr) (o : WireCmd → Option Err) (k : ByteStr)
    (hk : chanSet.lookup c.subs k ≠ none) :
    chanSet.lookup (c.Subscribe sink chs o).1.subs k ≠ none := by
  rcases PubSubConn.subscribe_state c sink chs o with h | h <;> rw [h]
  · exact hk
  · exact chanSet.addAll_preserve _ _ _ _ hk

/-- Helper: any command `Subscribe` issues is the SUBSCRIBE naming exactly
the missing keys, each of which is absent from the registry. -/
theorem PubSubConn.subscribe_args_missing (c : PubSubConn) (sink : Sink)
    (chs : List ByteStr) (o : WireCmd → Option Err) (w : WireCmd)
    (hw : w ∈ (c.Subscribe sink chs o).2.1) :
    w = ⟨(chanSet.missing c.subs chs).length, "SUBSCRIBE",
         chanSet.missing c.subs chs⟩ ∧
    ∀ x ∈ w.args, chanSet.lookup c.subs x = none := by
  rcases PubSubConn.subscribe_cmds c sink chs o with h | h
  · rw [h] at hw
    exact absurd hw (List.not_mem_nil w)
  · rw [h] at hw
    have hweq := List.eq_of_mem_singleton hw
    refine ⟨hweq, ?_⟩
    rw [hweq]
    intro x hx
    exact chanSet.lookup_of_mem_missing c.subs chs x hx

/-- Helper: `Unsubscribe`'s resulting literal registry is always the del
loop's result. -/
theorem PubSubConn.unsubscribe_subs (c : PubSubConn) (sink : Sink)
    (chs : List ByteStr) (o : WireCmd → Option Err) :
    (c.Unsubscribe sink chs o).1.subs = (chanSet.delAll c.subs sink chs).1 := by
  simp only [PubSubConn.Unsubscribe]
  by_cases h : (chanSet.delAll c.subs sink chs).2.length = 0
  · rw [if_pos h]
  · rw [if_neg h]

/-- Helper: `Unsubscribe` issues either nothing (no key emptied) or exactly
the one UNSUBSCRIBE naming the emptied keys. -/
theorem PubSubConn.unsubscribe_cmds (c : PubSubConn) (sink : Sink)
    (chs : List ByteStr) (o : WireCmd → Option Err) :
    ((c.Unsubscribe sink chs o).2.1 = []
      ∧ (chanSet.delAll c.subs sink chs).2 = []) ∨
    (c.Unsubscribe sink chs o).2.1
      = [⟨(chanSet.delAll c.subs sink chs).2.length, "UNSUBSCRIBE",
          (chanSet.delAll c.subs sink chs).2⟩] := by
  by_cases h : (chanSet.delAll c.subs sink chs).2.length = 0
  · left
    constructor
    · simp only [PubSubConn.Unsubscribe]
      rw [if_pos h]
    · exact List.length_eq_zero.mp h
  · right
    simp only [PubSubConn.Unsubscribe]
    rw [if_neg h]

/-- Helper: `Unsubscribe` keeps a present key present unless the issued
UNSUBSCRIBE names it. -/
theorem PubSubConn.unsubscribe_preserve (c : PubSubConn) (sink : Sink)
    (chs : List ByteStr) (o : WireCmd → Option Err) (k : ByteStr)
    (hk : chanSet.lookup c.subs k ≠ none)
    (hnot : ∀ w ∈ (c.Unsubscribe sink chs o).2.1,
      ¬(w.cmd = "UNSUBSCRIBE" ∧ k ∈ w.args)) :
    chanSet.lookup (c.Unsubscribe sink chs o).1.subs k ≠ none := by
  rw [PubSubConn.unsubscribe_subs c sink chs o]
  apply chanSet.delAll_preserve sink chs c.subs k hk
  intro hmem
  have hne : ¬((chanSet.delAll c.subs sink chs).2.length = 0) := by
    intro h0
    rw [List.length_eq_zero.mp h0] at hmem
    exact absurd hmem (List.not_mem_nil k)
  have hcmds : (c.Unsubscribe sink chs o).2.1
      = [⟨(chanSet.delAll c.subs sink chs).2.length, "UNSUBSCRIBE",
          (chanSet.delAll c.subs sink chs).2⟩] := by
    simp only [PubSubConn.Unsubscribe]
    rw [if_neg hne]
  exact hnot _ (by rw [hcmds]; exact List.mem_singleton_self _) ⟨rfl, hmem⟩

/-- One caller operation of a Subscribe/Unsubscribe sequence (any sink, any
key list), carrying the environment oracle for its possible `do` call. -/
inductive SubUnsubOp where
  | sub (sink : Sink) (channels : List ByteStr) (o : WireCmd → Option Err)
  | unsub (sink : Sink) (channels : List ByteStr) (o : WireCmd → Option Err)

/-- One step of such a sequence: next state and the wire commands issued. -/
def PubSubConn.stepSU (c : PubSubConn) : SubUnsubOp → PubSubConn × List WireCmd
  | .sub sink chs o =>
    let r := c.Subscribe sink chs o
    (r.1, r.2.1)
  | .unsub sink chs o =>
    let r := c.Unsubscribe sink chs o
    (r.1, r.2.1)

/-- A whole sequence of calls: final state and all issued wire commands in
order. -/
def PubSubConn.runSU (c : PubSubConn) : List SubUnsubOp → PubSubConn × List WireCmd
  | [] => (c, [])
  | op :: rest =>
    let r := c.stepSU op
    let r' := r.1.runSU rest
    (r'.1, r.2 ++ r'.2)

/-- C2: (i) a `Subscribe` whose keys are all already present issues no wire
command and returns no error; (ii) an issued SUBSCRIBE names exactly the
keys not yet present, with expected-ack count equal to their number, and
every named key is absent from the registry at issue time; (iii) along any
sequence of Subscribe/Unsubscribe calls by any sinks, a key present in the
literal registry stays present and is never named by an issued SUBSCRIBE
until an issued UNSUBSCRIBE names it (which happens exactly when an
`Unsubscribe` removes its last sink). -/
theorem c2_subscribe_at_most_once :
    (∀ (c : PubSubConn) (sink : Sink) (chs : List ByteStr)
        (o : WireCmd → Option Err),
      c.closed = false → chanSet.missing c.subs chs = [] →
      (c.Subscribe sink chs o).2.1 = [] ∧ (c.Subscribe sink chs o).2.2 = none) ∧
    (∀ (c : PubSubConn) (sink : Sink) (chs : List ByteStr)
        (o : WireCmd → Option Err) (w : WireCmd),
      c.closed = false → w ∈ (c.Subscribe sink chs o).2.1 →
      w.cmd = "SUBSCRIBE" ∧ w.args = chanSet.missing c.subs chs ∧
      w.exp = w.args.length ∧
      ∀ x ∈ w.args, chanSet.lookup c.subs x = none) ∧
    (∀ (c : PubSubConn) (k : ByteStr) (ops : List SubUnsubOp),
      chanSet.lookup c.subs k ≠ none →
      (∀ w ∈ (c.runSU ops).2, ¬(w.cmd = "UNSUBSCRIBE" ∧ k ∈ w.args)) →
      chanSet.lookup (c.runSU ops).1.subs k ≠ none ∧
      ∀ w ∈ (c.runSU ops).2, ¬(w.cmd = "SUBSCRIBE" ∧ k ∈ w.args)) := by
  refine ⟨?_, ?_, ?_⟩
  · intro c sink chs o hc hmiss
    constructor <;> simp [PubSubConn.Subscribe, hmiss]
  · intro c sink chs o w hc hw
    obtain ⟨hweq, hargs⟩ := PubSubConn.subscribe_args_missing c sink chs o w hw
    subst hweq
    exact ⟨rfl, rfl, rfl, hargs⟩
  · intro c k ops
    induction ops generalizing c with
    | nil =>
      intro hk _
      exact ⟨hk, fun w hw => absurd hw (List.not_mem_nil w)⟩
    | cons op rest ih =>
      intro hk hnot
      cases op with
      | sub sink chs o =>
        have hdef : c.runSU (SubUnsubOp.sub sink chs o :: rest)
            = (((c.Subscribe sink chs o).1.runSU rest).1,
               (c.Subscribe sink chs o).2.1
                 ++ ((c.Subscribe sink chs o).1.runSU rest).2) := rfl
        rw [hdef] at hnot ⊢
        have hk1 : chanSet.lookup (c.Subscribe sink chs o).1.subs k ≠ none :=
          PubSubConn.subscribe_preserve c sink chs o k hk
        have hnot2 : ∀ w ∈ ((c.Subscribe sink chs o).1.runSU rest).2,
            ¬(w.cmd = "UNSUBSCRIBE" ∧ k ∈ w.args) :=
          fun w hw => hnot w (List.mem_append_right _ hw)
        obtain ⟨hpres, hrest⟩ := ih (c.Subscribe sink chs o).1 hk1 hnot2
        refine ⟨hpres, ?_⟩
        intro w hw
        rcases List.mem_append.mp hw with hw1 | hw2
        · rintro ⟨hcmd, hmem⟩
          obtain ⟨hweq, hargs⟩ :=
            PubSubConn.subscribe_args_missing c sink chs o w hw1
          exact hk (hargs k hmem)
        · exact hrest w hw2
      | unsub sink chs o =>
        have hdef : c.runSU (SubUnsubOp.unsub sink chs o :: rest)
            = (((c.Unsubscribe sink chs o).1.runSU rest).1,
               (c.Unsubscribe sink chs o).2.1
                 ++ ((c.Unsubscribe sink chs o).1.runSU rest).2) := rfl
        rw [hdef] at hnot ⊢
        have hnot1 : ∀ w ∈ (c.Unsubscribe sink chs o).2.1,
            ¬(w.cmd = "UNSUBSCRIBE" ∧ k ∈ w.args) :=
          fun w hw => hnot w (List.mem_append_left _ hw)
        have hk1 : chanSet.lookup (c.Unsubscribe sink chs o).1.subs k ≠ none :=
          PubSubConn.unsubscribe_preserve c sink chs o k hk hnot1
        have hnot2 : ∀ w ∈ ((c.Unsubscribe sink chs o).1.runSU rest).2,
            ¬(w.cmd = "UNSUBSCRIBE" ∧ k ∈ w.args) :=
          fun w hw => hnot w (List.mem_append_right _ hw)
        obtain ⟨hpres, hrest⟩ := ih (c.Unsubscribe sink chs o).1 hk1 hnot2
        refine ⟨hpres, ?_⟩
        intro w hw
        rcases List.mem_append.mp hw with hw1 | hw2
        · rintro ⟨hcmd, hmem⟩
          rcases PubSubConn.unsubscribe_cmds c sink chs o with ⟨hnil, _⟩ | hone
          · rw [hnil] at hw1
            exact absurd hw1 (List.not_mem_nil w)
          · rw [hone] at hw1
            have hwe := List.eq_of_mem_singleton hw1
            rw [hwe] at hcmd
            have : ("UNSUBSCRIBE" : String) = "SUBSCRIBE" := hcmd
            exact absurd this (by decide)
        · exact hrest w hw2

/-- Witness for C2 at concrete inputs: a key held by one sink stays wire-
silent on re-subscription by another sink, an issued SUBSCRIBE names the
missing key, and a trace starting from a registered key keeps it
registered. -/
theorem c2_subscribe_at_most_once_witness :
    ((PubSubConn.Subscribe ⟨[([97], [1])], [], false, none⟩ 2 [[97]]
        (fun _ => none)).2.1 = [] ∧
     (PubSubConn.Subscribe ⟨[([97], [1])], [], false, none⟩ 2 [[97]]
        (fun _ => none)).2.2 = none) ∧
    ((⟨1, "SUBSCRIBE", [[98]]⟩ : WireCmd).cmd = "SUBSCRIBE" ∧
     (⟨1, "SUBSCRIBE", [[98]]⟩ : WireCmd).args
        = chanSet.missing [([97], [1])] [[98]] ∧
     (⟨1, "SUBSCRIBE", [[98]]⟩ : WireCmd).exp
        = (⟨1, "SUBSCRIBE", [[98]]⟩ : WireCmd).args.length ∧
     ∀ x ∈ (⟨1, "SUBSCRIBE", [[98]]⟩ : WireCmd).args,
       chanSet.lookup [([97], [1])] x = none) ∧
    (chanSet.lookup
        ((PubSubConn.runSU ⟨[([97], [1])], [], false, none⟩
          [SubUnsubOp.sub 2 [[98]] (fun _ => none)]).1.subs) [97] ≠ none ∧
     ∀ w ∈ (PubSubConn.runSU ⟨[([97], [1])], [], false, none⟩
          [SubUnsubOp.sub 2 [[98]] (fun _ => none)]).2,
       ¬(w.cmd = "SUBSCRIBE" ∧ [97] ∈ w.args)) :=
  ⟨c2_subscribe_at_most_once.1 (⟨[([97], [1])], [], false, none⟩ : PubSubConn)
      2 [[97]] (fun _ => none) rfl (by decide),
   c2_subscribe_at_most_once.2.1 (⟨[([97], [1])], [], false, none⟩ : PubSubConn)
      2 [[98]] (fun _ => none) ⟨1, "SUBSCRIBE", [[98]]⟩ rfl (by decide),
   c2_subscribe_at_most_once.2.2 (⟨[([97], [1])], [], false, none⟩ : PubSubConn)
      [97] [SubUnsubOp.sub 2 [[98]] (fun _ => none)] (by decide) (by decide)⟩
